import Mathlib

/-!
# Verification of the py-amqp transport layer (`amqp/transport.py`)

This file gives a shallow embedding of the transport module of the
repository and proves (or refutes) the frozen claims about it.

Modelling conventions:

* Bytes are `Nat` (values < 256 on the wire); byte strings are `List Nat`.
* The socket receive primitive (`self._quick_recv`, i.e. `sock.recv` for
  `TCPTransport` and `sock.read` for `SSLTransport`) is modelled by a list
  of `RecvResult` events consumed in order: each call to the primitive pops
  the next event, which either delivers a chunk of bytes (`[]` models a
  zero-byte result, i.e. peer close) or raises an error.
* Errors are modelled by `IOErr`: `socket.timeout` (whose `errno` is
  `None`), generic `OSError`/`IOError`/`socket.error` with an optional
  `errno`, and `ssl.SSLError` with a flag recording whether its message
  contains the substring `timed out`.
* `errno` numbers use their Linux values: `EAGAIN`/`EWOULDBLOCK` = 11,
  `EINTR` = 4, `ENOENT` = 2.
-/

/-- `errno.EAGAIN` (Linux). -/
def EAGAIN : Nat := 11

/-- `errno.EINTR` (Linux). -/
def EINTR : Nat := 4

/-- `errno.ENOENT` (Linux). -/
def ENOENT : Nat := 2

/-- `errno.EWOULDBLOCK` (Linux; equal to `EAGAIN`). -/
def EWOULDBLOCK : Nat := 11

/-- `_UNAVAIL = {errno.EAGAIN, errno.EINTR, errno.ENOENT, errno.EWOULDBLOCK}`
(transport.py line 43). -/
def UNAVAIL : List Nat := [EAGAIN, EINTR, ENOENT, EWOULDBLOCK]

/-- Errors the byte-level code can raise.  `timeout` is `socket.timeout`
(its `errno` attribute is `None`); `ioError eno` is a generic
`OSError`/`IOError`/`socket.error` carrying optional errno `eno`;
`sslError timedOutMsg eno` is an `ssl.SSLError` whose string contains
`timed out` iff `timedOutMsg`, carrying optional errno `eno`. -/
inductive IOErr where
  | timeout : IOErr
  | ioError (eno : Option Nat) : IOErr
  | sslError (timedOutMsg : Bool) (eno : Option Nat) : IOErr
deriving DecidableEq

/-- `utils.get_errno(exc)`: the `errno` attribute of the exception
(`None` for `socket.timeout`). -/
def errErrno : IOErr → Option Nat
  | .timeout => none
  | .ioError eno => eno
  | .sslError _ eno => eno

/-- `get_errno(exc) in _UNAVAIL` — a `None` errno is not in the set. -/
def unavail (eno : Option Nat) : Bool :=
  match eno with
  | some k => UNAVAIL.contains k
  | none => false

/-- `exc.errno in _errnos`, the transient-error test inside `_read`
(`_errnos` is `(EAGAIN, EINTR)` for `TCPTransport._read` and
`(ENOENT, EAGAIN, EINTR)` for `SSLTransport._read`).  A `None` errno is
never in the tuple. -/
def isTransient (errnos : List Nat) (e : IOErr) : Bool :=
  match errErrno e with
  | some k => errnos.contains k
  | none => false

/-- One result of calling the receive primitive: either a chunk of bytes
(the empty chunk models a zero-byte return, i.e. peer shutdown) or a
raised error. -/
inductive RecvResult where
  | chunk (s : List Nat) : RecvResult
  | err (e : IOErr) : RecvResult
deriving DecidableEq

/-- Result of one `_read(n, initial)` call.  `ok result retained rest`:
the call returns `result`, leaves `retained` in `self._read_buffer` and
the unconsumed receive events are `rest`.  `fail e buf rest`: the call
raises `e` after the bare `except:` handler stored `buf` into
`self._read_buffer` (transport.py lines 376-378 / 323-325), with events
`rest` unconsumed.  `stuck buf` models the loop blocking forever because
the event list is exhausted with `buf` accumulated (no real-code
analogue; never reached in the claims below). -/
inductive ReadOutcome where
  | ok (result retained : List Nat) (rest : List RecvResult) : ReadOutcome
  | fail (e : IOErr) (buf : List Nat) (rest : List RecvResult) : ReadOutcome
  | stuck (buf : List Nat) : ReadOutcome
deriving DecidableEq

/-- `_AbstractTransport` subclasses' `_read(n, initial)` loop
(transport.py lines 359-381 for `TCPTransport`, 300-327 for
`SSLTransport`; the two bodies are identical except for the `_errnos`
tuple, passed here as `errnos`).  `raise_on_initial_eintr` is the
transport field of the same name; `rbuf` is `self._read_buffer` at entry.

While fewer than `n` bytes are buffered: pop the next receive event; an
empty chunk raises `IOError('Socket closed')` (an `ioError` with `errno
None`); a transient error (errno in `errnos`) is re-raised when `initial
and self.raise_on_initial_eintr`, otherwise silently retried; any other
error is re-raised.  Any raise passes through the bare `except:` that
stores the accumulated `rbuf` into `self._read_buffer`.  On success the
first `n` buffered bytes are returned and the excess is retained. -/
def readLoop (errnos : List Nat) (raise_on_initial_eintr initial : Bool)
    (n : Nat) : List RecvResult → List Nat → ReadOutcome
  | evs, rbuf =>
    if rbuf.length < n then
      match evs with
      | [] => .stuck rbuf
      | .chunk s :: rest =>
        if s.isEmpty then .fail (.ioError none) rbuf rest
        else readLoop errnos raise_on_initial_eintr initial n rest (rbuf ++ s)
      | .err e :: rest =>
        if isTransient errnos e then
          if initial && raise_on_initial_eintr then .fail e rbuf rest
          else readLoop errnos raise_on_initial_eintr initial n rest rbuf
        else .fail e rbuf rest
    else .ok (rbuf.take n) (rbuf.drop n) evs

/-- The `_errnos` tuple of `TCPTransport._read` (transport.py line 359). -/
def TCP_errnos : List Nat := [EAGAIN, EINTR]

/-- The `_errnos` tuple of `SSLTransport._read` (transport.py line 301). -/
def SSL_errnos : List Nat := [ENOENT, EAGAIN, EINTR]

/-- All bytes delivered by the chunk events of an event list, in order. -/
def flatEvents : List RecvResult → List Nat
  | [] => []
  | .chunk s :: rest => s ++ flatEvents rest
  | .err _ :: rest => flatEvents rest

/-- `true` iff every event is a non-empty chunk (a plain successful
receive sequence). -/
def goodChunks (evs : List RecvResult) : Bool :=
  evs.all fun ev =>
    match ev with
    | .chunk s => !s.isEmpty
    | .err _ => false

/-- Remove the transient-error events (the ones `_read` silently
retries) from an event sequence. -/
def stripTransient (errnos : List Nat) : List RecvResult → List RecvResult
  | [] => []
  | .chunk s :: rest => .chunk s :: stripTransient errnos rest
  | .err e :: rest =>
    if isTransient errnos e then stripTransient errnos rest
    else .err e :: stripTransient errnos rest

/-- Apply `stripTransient` to the unconsumed events of an outcome, so
outcomes of runs that differ only in absorbed transient errors can be
compared. -/
def stripOutcome (errnos : List Nat) : ReadOutcome → ReadOutcome
  | .ok r ret rest => .ok r ret (stripTransient errnos rest)
  | .fail e buf rest => .fail e buf (stripTransient errnos rest)
  | .stuck buf => .stuck buf

/-- The transport state touched by `read_frame`: the `connected` flag and
`self._read_buffer`. -/
structure TState where
  connected : Bool
  read_buffer : List Nat
deriving DecidableEq

/-- Result of `read_frame()`: a parsed frame, a propagated I/O error
(`socket.timeout` after the SSL translation, or the original error), an
`UnexpectedFrame` raise carrying the offending trailer byte, or a block
on an exhausted event list. -/
inductive FrameOutcome where
  | ok (frame_type channel : Nat) (payload : List Nat) : FrameOutcome
  | err (e : IOErr) : FrameOutcome
  | unexpectedFrame (ch : Nat) : FrameOutcome
  | stuck : FrameOutcome
deriving DecidableEq

/-- The two `except` clauses of `read_frame` (transport.py lines
237-247).  `e` is the raised error, `frameBuf` is `read_frame_buffer`
(bytes of the frame already moved out of the read buffer), `buf` is
`self._read_buffer` as the failing `_read` left it, `rest` the
unconsumed events.  `socket.timeout` prepends `read_frame_buffer` to the
read buffer and re-raises; an `SSLError` whose message contains `timed
out` is re-raised as a fresh `socket.timeout` (without the prepend);
any other error sets `connected = False` unless its errno is in
`_UNAVAIL`, and re-raises. -/
def frameExcept (e : IOErr) (frameBuf buf : List Nat)
    (rest : List RecvResult) (st : TState) :
    FrameOutcome × TState × List RecvResult :=
  match e with
  | .timeout => (.err .timeout, ⟨st.connected, frameBuf ++ buf⟩, rest)
  | .sslError true _ => (.err .timeout, ⟨st.connected, buf⟩, rest)
  | e => (.err e, ⟨if unavail (errErrno e) then st.connected else false, buf⟩, rest)

/-- `unpack('>BHI', frame_header)`: 1-byte type, 2-byte big-endian
channel, 4-byte big-endian payload size. -/
def unpack_BHI (h : List Nat) : Nat × Nat × Nat :=
  (h.getD 0 0,
    256 * h.getD 1 0 + h.getD 2 0,
    16777216 * h.getD 3 0 + 65536 * h.getD 4 0 + 256 * h.getD 5 0 + h.getD 6 0)

/-- `_AbstractTransport.read_frame` (transport.py lines 227-252) over the
event model: read the 7-byte header with `initial=True`, parse it, read
the payload, read the trailer byte; a trailer other than `0xCE` (206)
raises `UnexpectedFrame` outside the `try`, so it touches neither
`connected` nor the read buffer beyond what the reads consumed. -/
def read_frame (errnos : List Nat) (raise_on_initial_eintr : Bool)
    (st : TState) (evs : List RecvResult) :
    FrameOutcome × TState × List RecvResult :=
  match readLoop errnos raise_on_initial_eintr true 7 evs st.read_buffer with
  | .stuck buf => (.stuck, ⟨st.connected, buf⟩, [])
  | .fail e buf rest => frameExcept e [] buf rest st
  | .ok frame_header buf1 rest1 =>
    match readLoop errnos raise_on_initial_eintr false
        (unpack_BHI frame_header).2.2 rest1 buf1 with
    | .stuck buf => (.stuck, ⟨st.connected, buf⟩, [])
    | .fail e buf rest => frameExcept e frame_header buf rest st
    | .ok payload buf2 rest2 =>
      match readLoop errnos raise_on_initial_eintr false 1 rest2 buf2 with
      | .stuck buf => (.stuck, ⟨st.connected, buf⟩, [])
      | .fail e buf rest => frameExcept e (frame_header ++ payload) buf rest st
      | .ok tr buf3 rest3 =>
        if tr.getD 0 0 = 206 then
          (.ok (unpack_BHI frame_header).1 (unpack_BHI frame_header).2.1 payload,
            ⟨st.connected, buf3⟩, rest3)
        else
          (.unexpectedFrame (tr.getD 0 0), ⟨st.connected, buf3⟩, rest3)

/-- Big-endian 2-byte encoding of a channel number below 2 ^ 16. -/
def be16 (c : Nat) : List Nat := [c / 256 % 256, c % 256]

/-- Big-endian 4-byte encoding of a length below 2 ^ 32. -/
def be32 (x : Nat) : List Nat :=
  [x / 16777216 % 256, x / 65536 % 256, x / 256 % 256, x % 256]

/-- The wire encoding of a frame per the spec: 1-byte type, 2-byte
big-endian channel, 4-byte big-endian payload length, the payload, then
one trailer byte (`206` = `0xCE` for a well-formed frame). -/
def encodeFrame (t c : Nat) (p : List Nat) (trailer : Nat) : List Nat :=
  t :: (be16 c ++ be32 p.length ++ p ++ [trailer])

/-!
## Socket option configuration (`_set_socket_options`)

Python dicts are modelled as association lists with dict update
semantics (insertion order preserved, updates in place).  TCP option
identifiers and values are `Nat`; `socket.TCP_NODELAY` is 1 on Linux.
-/

/-- `d[k]` as an option (first — and for a well-formed dict only —
binding wins). -/
def dictGet (d : List (Nat × Nat)) (k : Nat) : Option Nat :=
  match d.find? (fun kv => kv.1 == k) with
  | some kv => some kv.2
  | none => none

/-- `d[k] = v`: replace in place if the key exists, else append. -/
def dictSet (d : List (Nat × Nat)) (k v : Nat) : List (Nat × Nat) :=
  if (d.find? (fun kv => kv.1 == k)).isSome then
    d.map (fun kv => if kv.1 == k then (kv.1, v) else kv)
  else d ++ [(k, v)]

/-- `d.setdefault(k, v)`: insert only when the key is absent. -/
def dictSetdefault (d : List (Nat × Nat)) (k v : Nat) : List (Nat × Nat) :=
  if (d.find? (fun kv => kv.1 == k)).isSome then d else d ++ [(k, v)]

/-- `d.update(s)`: set every binding of `s` into `d`, in order. -/
def dictUpdate (d s : List (Nat × Nat)) : List (Nat × Nat) :=
  s.foldl (fun acc kv => dictSet acc kv.1 kv.2) d

/-- `socket.TCP_NODELAY` (Linux). -/
def TCP_NODELAY : Nat := 1

/-- `_get_tcp_socket_defaults` (transport.py lines 182-185): the current
socket value of every option in `TCP_OPTS` (the platform-supported
subset of `KNOWN_TCP_OPTS`, passed here as `tcpOpts`; `getsockopt` is
the socket's current-value query). -/
def get_tcp_socket_defaults (tcpOpts : List Nat) (getsockopt : Nat → Nat) :
    List (Nat × Nat) :=
  tcpOpts.map (fun o => (o, getsockopt o))

/-- `_set_socket_options` (transport.py lines 187-197), returning the map
of `(option, value)` pairs passed to `setsockopt`.  With falsy
`socket_settings` only `TCP_NODELAY = 1` is applied; otherwise the
platform defaults are read, `TCP_NODELAY` is `setdefault`ed to 1, the
caller settings are overlaid, and every resulting pair is applied. -/
def set_socket_options (tcpOpts : List Nat) (getsockopt : Nat → Nat)
    (socket_settings : List (Nat × Nat)) : List (Nat × Nat) :=
  if socket_settings.isEmpty then [(TCP_NODELAY, 1)]
  else
    dictUpdate
      (dictSetdefault (get_tcp_socket_defaults tcpOpts getsockopt) TCP_NODELAY 1)
      socket_settings

/-- Modelled from the spec's words for comparison (claim C7): the
platform defaults *overlaid* with `TCP_NODELAY = 1` (unconditionally),
then overlaid with the caller settings. -/
def set_socket_options_specMerge (tcpOpts : List Nat) (getsockopt : Nat → Nat)
    (socket_settings : List (Nat × Nat)) : List (Nat × Nat) :=
  dictUpdate
    (dictSet (get_tcp_socket_defaults tcpOpts getsockopt) TCP_NODELAY 1)
    socket_settings

/-!
## Endpoint parsing (`to_host_port`)

Hosts are `List Char`.  `none` models the `ValueError` that `int()`
raises on a malformed port suffix (the spec's `MalformedEndpoint`).
-/

/-- The character class `[\.0-9a-f:]` of the `IPV6_LITERAL` regex
(transport.py line 53). -/
def isV6Char (c : Char) : Bool :=
  c = '.' || c = ':' || c.isDigit || ('a' ≤ c && c ≤ 'f')

/-- `IPV6_LITERAL.match(host)` for the pattern
`\[([\.0-9a-f:]+)\](?::(\d+))?`: an anchored prefix match returning
`(group 1, group 2)`.  Both `+`-classes are greedy and their follow
characters are outside the class, so maximal-run matching is exact. -/
def IPV6_LITERAL (cs : List Char) : Option (List Char × Option (List Char)) :=
  match cs with
  | '[' :: rest =>
    let body := rest.takeWhile isV6Char
    if body.isEmpty then none
    else
      match rest.dropWhile isV6Char with
      | ']' :: ':' :: rest2 =>
        let ds := rest2.takeWhile Char.isDigit
        if ds.isEmpty then some (body, none) else some (body, some ds)
      | ']' :: _ => some (body, none)
      | _ => none
  | _ => none

/-- Numeric value of a digit string. -/
def digitsVal (cs : List Char) : Nat :=
  cs.foldl (fun a c => 10 * a + (c.toNat - 48)) 0

/-- Python `int(str)` restricted to the optional-sign-plus-digits forms
(whitespace and underscore forms are never produced by the callers
modelled here); `none` models the `ValueError` raise. -/
def pyInt (cs : List Char) : Option Int :=
  match cs with
  | [] => none
  | c :: ds =>
    if c = '+' then
      if !ds.isEmpty && ds.all Char.isDigit then some ((digitsVal ds : Nat) : Int)
      else none
    else if c = '-' then
      if !ds.isEmpty && ds.all Char.isDigit then some (-((digitsVal ds : Nat) : Int))
      else none
    else if (c :: ds).all Char.isDigit then some ((digitsVal (c :: ds) : Nat) : Int)
    else none

/-- `host.rsplit(':', 1)` for a host containing `':'`: the part before
the last colon and the part after it. -/
def rsplitColon (cs : List Char) : List Char × List Char :=
  (((cs.reverse.dropWhile (fun c => !(c == ':'))).drop 1).reverse,
    (cs.reverse.takeWhile (fun c => !(c == ':'))).reverse)

/-- `to_host_port` (transport.py lines 66-77) without the default-port
substitution (the source leaves `port = None` untouched; the default is
applied downstream).  `none` is the `ValueError` from `int()` on a bad
port suffix. -/
def to_host_port (host : List Char) : Option (List Char × Option Int) :=
  match IPV6_LITERAL host with
  | some (h, some ds) =>
    match pyInt ds with
    | some p => some (h, some p)
    | none => none
  | some (h, none) => some (h, none)
  | none =>
    if host.contains ':' then
      match pyInt (rsplitColon host).2 with
      | some p => some ((rsplitColon host).1, some p)
      | none => none
    else some (host, none)

/-!
## `SSLTransport.__init__`, `_setup_transport` and the `Transport` factory
-/

/-- The `ssl` argument of `SSLTransport.__init__` / `Transport`: `None`,
a boolean, or a dict of TLS options (opaque key/value pairs). -/
inductive SslArg where
  | noneV : SslArg
  | boolV (b : Bool) : SslArg
  | dictV (d : List (Nat × Nat)) : SslArg
deriving DecidableEq

/-- Python truthiness of an `ssl` argument (`None` and `{}` and `False`
are falsy). -/
def sslTruthy : SslArg → Bool
  | .noneV => false
  | .boolV b => b
  | .dictV d => !d.isEmpty

/-- The effect of `SSLTransport.__init__` (transport.py lines 268-273) on
the `sslopts` attribute: assigned (`some`) only when `isinstance(ssl,
dict)`; otherwise the attribute is never created (`none`). -/
def SSLTransport_init (ssl : SslArg) : Option (List (Nat × Nat)) :=
  match ssl with
  | .dictV d => some d
  | _ => none

/-- `SSLTransport._setup_transport` (transport.py lines 275-279):
evaluating `self.sslopts` on an instance whose attribute was never
assigned raises `AttributeError` (modelled `.error ()`) before
`_wrap_socket`/`do_handshake` can run; otherwise the hook proceeds and
wraps the socket with `sslopts or {}` (returned on success). -/
def SSLTransport_setup_transport (sslopts : Option (List (Nat × Nat))) :
    Except Unit (List (Nat × Nat)) :=
  match sslopts with
  | none => .error ()
  | some opts => .ok opts

/-- The transport a `Transport(...)` factory call constructs. -/
inductive MadeTransport where
  | sslT (sslopts : Option (List (Nat × Nat))) : MadeTransport
  | tcpT : MadeTransport
deriving DecidableEq

/-- `Transport` (transport.py lines 384-388): pick `SSLTransport` when
`ssl` is truthy (forwarding `ssl` itself to its constructor), else
`TCPTransport`. -/
def Transport (ssl : SslArg) : MadeTransport :=
  if sslTruthy ssl then .sslT (SSLTransport_init ssl) else .tcpT

/-!
## Lemmas about the exact-size read loop
-/

theorem goodChunks_cons {ev : RecvResult} {evs : List RecvResult} :
    goodChunks (ev :: evs) = true ↔
      ((match ev with
        | .chunk s => !s.isEmpty
        | .err _ => false) = true ∧ goodChunks evs = true) := by
  simp [goodChunks, List.all_cons]

theorem flatEvents_nil_of_goodChunks {evs : List RecvResult}
    (hg : goodChunks evs = true) (hf : flatEvents evs = []) : evs = [] := by
  cases evs with
  | nil => rfl
  | cons ev rest =>
    rcases goodChunks_cons.mp hg with ⟨h1, _⟩
    cases ev with
    | chunk s =>
      simp [flatEvents] at hf
      simp [hf.1] at h1
    | err e => simp at h1

/-- Core success lemma: when the receive sequence is plain non-empty
chunks holding at least `n` bytes beyond the buffer, `_read` succeeds
with the first `n` available bytes and the rest stays available. -/
theorem readLoop_ok_of_enough (errnos : List Nat) (ri init : Bool) (n : Nat) :
    ∀ (evs : List RecvResult) (buf : List Nat), goodChunks evs = true →
    n ≤ buf.length + (flatEvents evs).length →
    ∃ retained rest, readLoop errnos ri init n evs buf =
        .ok ((buf ++ flatEvents evs).take n) retained rest ∧
      goodChunks rest = true ∧
      retained ++ flatEvents rest = (buf ++ flatEvents evs).drop n := by
  intro evs
  induction evs with
  | nil =>
    intro buf _ hn
    have hnl : ¬ buf.length < n := by simp [flatEvents] at hn; omega
    refine ⟨buf.drop n, [], ?_, rfl, ?_⟩
    · rw [readLoop]
      simp [hnl, flatEvents]
    · simp [flatEvents]
  | cons ev rest ih =>
    intro buf hg hn
    rcases goodChunks_cons.mp hg with ⟨h1, h2⟩
    cases ev with
    | err e => simp at h1
    | chunk s =>
      by_cases hlt : buf.length < n
      · have hs : s.isEmpty = false := by simpa using h1
        have hn' : n ≤ (buf ++ s).length + (flatEvents rest).length := by
          simp [flatEvents, List.length_append] at hn ⊢
          omega
        rcases ih (buf ++ s) h2 hn' with ⟨ret, rest', heq, hg', hflat⟩
        refine ⟨ret, rest', ?_, hg', ?_⟩
        · rw [readLoop]
          simp only [hlt, if_pos, hs]
          simpa [flatEvents, List.append_assoc] using heq
        · simpa [flatEvents, List.append_assoc] using hflat
      · refine ⟨buf.drop n, .chunk s :: rest, ?_, hg, ?_⟩
        · rw [readLoop]
          simp only [hlt, if_neg, if_false]
          have hle : n ≤ buf.length := Nat.not_lt.mp hlt
          congr 1
          rw [List.take_append_of_le_length hle]
        · have hle : n ≤ buf.length := Nat.not_lt.mp hlt
          rw [List.drop_append_of_le_length hle]

/-- Splitting form of the success lemma: if the available bytes decompose
as `A ++ B` with `A.length = n`, the read returns `A` and `B` stays
available. -/
theorem readLoop_split (errnos : List Nat) (ri init : Bool) (n : Nat)
    (evs : List RecvResult) (buf A B : List Nat)
    (hg : goodChunks evs = true)
    (hAB : buf ++ flatEvents evs = A ++ B) (hA : A.length = n) :
    ∃ retained rest, readLoop errnos ri init n evs buf = .ok A retained rest ∧
      goodChunks rest = true ∧ retained ++ flatEvents rest = B := by
  have hn : n ≤ buf.length + (flatEvents evs).length := by
    have := congrArg List.length hAB
    simp [List.length_append] at this
    omega
  rcases readLoop_ok_of_enough errnos ri init n evs buf hg hn with
    ⟨ret, rest, heq, hg', hflat⟩
  refine ⟨ret, rest, ?_, hg', ?_⟩
  · rw [heq, hAB, ← hA, List.take_left]
  · rw [hflat, hAB, ← hA, List.drop_left]


theorem readLoop_done {errnos : List Nat} {ri init : Bool} {n : Nat}
    {evs : List RecvResult} {buf : List Nat} (h : ¬ buf.length < n) :
    readLoop errnos ri init n evs buf = .ok (buf.take n) (buf.drop n) evs := by
  rw [readLoop.eq_def]
  simp only [h, if_false]

theorem readLoop_chunk {errnos : List Nat} {ri init : Bool} {n : Nat}
    {s buf : List Nat} {rest : List RecvResult} (h : buf.length < n) :
    readLoop errnos ri init n (.chunk s :: rest) buf =
      if s.isEmpty then .fail (.ioError none) buf rest
      else readLoop errnos ri init n rest (buf ++ s) := by
  rw [readLoop.eq_def]
  simp only [h, if_true]

theorem readLoop_err {errnos : List Nat} {ri init : Bool} {n : Nat}
    {buf : List Nat} {e : IOErr} {rest : List RecvResult} (h : buf.length < n) :
    readLoop errnos ri init n (.err e :: rest) buf =
      if isTransient errnos e then
        if init && ri then .fail e buf rest
        else readLoop errnos ri init n rest buf
      else .fail e buf rest := by
  rw [readLoop.eq_def]
  simp only [h, if_true]

/-- Shape of any successful `_read`: the result has exactly `n` bytes,
is the first-`n`/rest split of the final buffer, and no byte is created
or lost (result + retained + still-pending bytes = initial buffer +
all deliverable bytes). -/
theorem readLoop_ok_shape (errnos : List Nat) (ri init : Bool) (n : Nat) :
    ∀ (evs : List RecvResult) (buf r ret : List Nat) (rest : List RecvResult),
    readLoop errnos ri init n evs buf = .ok r ret rest →
    r.length = n ∧ (∃ rb : List Nat, r = rb.take n ∧ ret = rb.drop n) ∧
      r ++ ret ++ flatEvents rest = buf ++ flatEvents evs := by
  intro evs
  induction evs with
  | nil =>
    intro buf r ret rest h
    by_cases hlt : buf.length < n
    · rw [readLoop.eq_def] at h
      simp [hlt] at h
    · rw [readLoop_done hlt] at h
      obtain ⟨hr, hret, hrest⟩ := by simpa [ReadOutcome.ok.injEq] using h
      subst hr; subst hret; subst hrest
      refine ⟨?_, ⟨buf, rfl, rfl⟩, ?_⟩
      · simp [List.length_take]; omega
      · simp [flatEvents]
  | cons ev evs' ih =>
    intro buf r ret rest h
    by_cases hlt : buf.length < n
    · cases ev with
      | chunk s =>
        rw [readLoop_chunk hlt] at h
        by_cases hs : s.isEmpty
        · simp [hs] at h
        · rw [if_neg hs] at h
          rcases ih (buf ++ s) r ret rest h with ⟨h1, h2, h3⟩
          refine ⟨h1, h2, ?_⟩
          rw [h3]
          simp [flatEvents, List.append_assoc]
      | err e =>
        rw [readLoop_err hlt] at h
        by_cases ht : isTransient errnos e
        · rw [if_pos ht] at h
          by_cases hir : (init && ri) = true
          · simp [hir] at h
          · rw [if_neg (by simpa using hir)] at h
            rcases ih buf r ret rest h with ⟨h1, h2, h3⟩
            refine ⟨h1, h2, ?_⟩
            rw [h3]
            simp [flatEvents]
        · rw [if_neg ht] at h
          simp at h
    · rw [readLoop_done hlt] at h
      obtain ⟨hr, hret, hrest⟩ := by simpa [ReadOutcome.ok.injEq] using h
      subst hr; subst hret; subst hrest
      refine ⟨?_, ⟨buf, rfl, rfl⟩, ?_⟩
      · simp [List.length_take]; omega
      · simp [flatEvents]

/-- Any failing `_read` leaves a buffer that extends the entry buffer:
bytes received before the failure are preserved, never dropped. -/
theorem readLoop_fail_preserves (errnos : List Nat) (ri init : Bool) (n : Nat) :
    ∀ (evs : List RecvResult) (buf : List Nat) (e : IOErr)
      (fb : List Nat) (rest : List RecvResult),
    readLoop errnos ri init n evs buf = .fail e fb rest →
    ∃ recvd, fb = buf ++ recvd := by
  intro evs
  induction evs with
  | nil =>
    intro buf e fb rest h
    by_cases hlt : buf.length < n
    · rw [readLoop.eq_def] at h
      simp [hlt] at h
    · rw [readLoop_done hlt] at h
      simp at h
  | cons ev evs' ih =>
    intro buf e fb rest h
    by_cases hlt : buf.length < n
    · cases ev with
      | chunk s =>
        rw [readLoop_chunk hlt] at h
        by_cases hs : s.isEmpty
        · rw [if_pos hs] at h
          obtain ⟨_, hfb, _⟩ := by simpa [ReadOutcome.fail.injEq] using h
          exact ⟨[], by simp [← hfb]⟩
        · rw [if_neg hs] at h
          rcases ih (buf ++ s) e fb rest h with ⟨recvd, hr⟩
          exact ⟨s ++ recvd, by simp [hr, List.append_assoc]⟩
      | err e' =>
        rw [readLoop_err hlt] at h
        by_cases ht : isTransient errnos e'
        · rw [if_pos ht] at h
          by_cases hir : (init && ri) = true
          · rw [if_pos hir] at h
            obtain ⟨_, hfb, _⟩ := by simpa [ReadOutcome.fail.injEq] using h
            exact ⟨[], by simp [← hfb]⟩
          · rw [if_neg (by simpa using hir)] at h
            exact ih buf e fb rest h
        · rw [if_neg ht] at h
          obtain ⟨_, hfb, _⟩ := by simpa [ReadOutcome.fail.injEq] using h
          exact ⟨[], by simp [← hfb]⟩
    · rw [readLoop_done hlt] at h
      simp at h

/-- C1: Exact-size buffered read.  (i) For every `n` and every receive
sequence of non-empty chunks summing to exactly `n` bytes, `_read(n)`
from an empty retained buffer returns those bytes in arrival order,
consumes the whole sequence and leaves the retained buffer empty.
(ii) Whenever `_read(n)` returns normally it returns exactly `n` bytes —
the first `n` of the accumulated buffer — retains exactly the excess, and
no received byte is lost.  Parametrized over `errnos`, covering both
`TCPTransport._read` and `SSLTransport._read`. -/
theorem C1_exact_size_buffered_read (errnos : List Nat) (ri init : Bool)
    (n : Nat) (evs : List RecvResult) :
    (goodChunks evs = true → (flatEvents evs).length = n →
      readLoop errnos ri init n evs [] = .ok (flatEvents evs) [] []) ∧
    (∀ (buf r ret : List Nat) (rest : List RecvResult),
      readLoop errnos ri init n evs buf = .ok r ret rest →
      r.length = n ∧ (∃ rb : List Nat, r = rb.take n ∧ ret = rb.drop n) ∧
        r ++ ret ++ flatEvents rest = buf ++ flatEvents evs) := by
  constructor
  · intro hg hn
    rcases readLoop_split errnos ri init n evs [] (flatEvents evs) [] hg
      (by simp) hn with ⟨ret, rest, heq, hg', hflat⟩
    rcases List.append_eq_nil.mp hflat with ⟨hret, hfr⟩
    have hrest : rest = [] := flatEvents_nil_of_goodChunks hg' hfr
    rw [heq, hret, hrest]
  · exact readLoop_ok_shape errnos ri init n evs

/-- Witness for C1 at a concrete split: 3 bytes delivered as a 1-byte
then a 2-byte chunk. -/
theorem C1_exact_size_buffered_read_witness :
    readLoop [] false false 3 [.chunk [1], .chunk [2, 3]] [] =
      .ok [1, 2, 3] [] [] := by
  have h := (C1_exact_size_buffered_read [] false false 3
    [.chunk [1], .chunk [2, 3]]).1 (by decide) (by decide)
  simpa using h

theorem stripTransient_idem (errnos : List Nat) :
    ∀ evs : List RecvResult,
    stripTransient errnos (stripTransient errnos evs) = stripTransient errnos evs := by
  intro evs
  induction evs with
  | nil => rfl
  | cons ev rest ih =>
    cases ev with
    | chunk s => simp [stripTransient, ih]
    | err e =>
      by_cases ht : isTransient errnos e
      · simp [stripTransient, ht, ih]
      · simp [stripTransient, ht, ih]

/-- C8: Transient-error transparency.  (i) When the call is not an
initial read with the strict-initial-interrupt flag set
(`initial && raise_on_initial_eintr = false`), `_read(n)` behaves on any
receive sequence exactly as on the sequence with its transient errors
removed: same returned bytes, same retained buffer, same error, and the
unconsumed events agree up to the removed transient errors.  (ii) With
`initial = true` and the flag set, a transient error propagates at once,
preserving the buffered bytes.  Parametrized over `errnos`, covering
both transports. -/
theorem C8_transient_transparency (errnos : List Nat) (ri init : Bool) (n : Nat) :
    (∀ (evs : List RecvResult) (buf : List Nat), (init && ri) = false →
      stripOutcome errnos (readLoop errnos ri init n evs buf) =
        stripOutcome errnos (readLoop errnos ri init n (stripTransient errnos evs) buf)) ∧
    (∀ (e : IOErr) (rest : List RecvResult) (buf : List Nat),
      isTransient errnos e = true → buf.length < n →
      readLoop errnos true true n (.err e :: rest) buf = .fail e buf rest) := by
  constructor
  · intro evs
    induction evs with
    | nil => intro buf _; rfl
    | cons ev rest ih =>
      intro buf hir
      by_cases hlt : buf.length < n
      · cases ev with
        | chunk s =>
          by_cases hs : s.isEmpty
          · rw [stripTransient, readLoop_chunk hlt, readLoop_chunk hlt,
              if_pos hs, if_pos hs]
            simp [stripOutcome, stripTransient_idem]
          · rw [stripTransient, readLoop_chunk hlt, readLoop_chunk hlt,
              if_neg hs, if_neg hs]
            exact ih (buf ++ s) hir
        | err e =>
          by_cases ht : isTransient errnos e
          · rw [stripTransient, if_pos ht, readLoop_err hlt, if_pos ht,
              if_neg (by simp [hir])]
            exact ih buf hir
          · rw [stripTransient, if_neg ht, readLoop_err hlt, readLoop_err hlt,
              if_neg ht, if_neg ht]
            simp [stripOutcome, stripTransient_idem]
      · rw [readLoop_done hlt, readLoop_done hlt]
        simp [stripOutcome, stripTransient_idem]
  · intro e rest buf ht hlt
    rw [readLoop_err hlt, if_pos ht]
    simp

/-- Witness for C8: a receive sequence with an interleaved `EINTR` gives
the same read as the stripped sequence, and with `initial` and the
strict flag both set the `EINTR` propagates. -/
theorem C8_transient_transparency_witness :
    stripOutcome TCP_errnos
        (readLoop TCP_errnos false false 2
          [.chunk [7], .err (.ioError (some EINTR)), .chunk [8]] []) =
      stripOutcome TCP_errnos
        (readLoop TCP_errnos false false 2
          (stripTransient TCP_errnos
            [.chunk [7], .err (.ioError (some EINTR)), .chunk [8]]) []) ∧
    readLoop TCP_errnos true true 2 [.err (.ioError (some EINTR))] [] =
      .fail (.ioError (some EINTR)) [] [] := by
  refine ⟨(C8_transient_transparency TCP_errnos false false 2).1 _ _ (by decide), ?_⟩
  exact (C8_transient_transparency TCP_errnos true true 2).2
    (.ioError (some EINTR)) [] [] (by decide) (by decide)

theorem frameExcept_spec (e : IOErr) (fb buf : List Nat)
    (rest : List RecvResult) (st : TState) (e' : IOErr)
    (h : (frameExcept e fb buf rest st).1 = .err e') :
    (frameExcept e fb buf rest st).2.1.connected =
      (if e' = .timeout then st.connected
        else if unavail (errErrno e') then st.connected else false) := by
  cases e with
  | timeout =>
    simp [frameExcept] at h
    simp [frameExcept, ← h]
  | ioError eno =>
    simp [frameExcept] at h
    simp [frameExcept, ← h, errErrno]
  | sslError b eno =>
    cases b with
    | true =>
      simp [frameExcept] at h
      simp [frameExcept, ← h]
    | false =>
      simp [frameExcept] at h
      simp [frameExcept, ← h, errErrno]

/-- `connected` after `read_frame` propagates an error `e`: a
`socket.timeout` (original or translated from an SSL timed-out message)
leaves it untouched; any other error leaves it untouched exactly when its
errno is in `_UNAVAIL`, and clears it otherwise. -/
theorem read_frame_err_connected (errnos : List Nat) (ri : Bool)
    (st : TState) (evs : List RecvResult) (e : IOErr)
    (h : (read_frame errnos ri st evs).1 = .err e) :
    (read_frame errnos ri st evs).2.1.connected =
      (if e = .timeout then st.connected
        else if unavail (errErrno e) then st.connected else false) := by
  unfold read_frame at h ⊢
  rcases h7 : readLoop errnos ri true 7 evs st.read_buffer with
    ⟨hdr, b1, r1⟩ | ⟨e1, bb, rr⟩ | bb
  · rw [h7] at h
    dsimp only at h ⊢
    rcases hp : readLoop errnos ri false (unpack_BHI hdr).2.2 r1 b1 with
      ⟨pay, b2, r2⟩ | ⟨e2, bb2, rr2⟩ | bb2
    · rw [hp] at h
      dsimp only at h ⊢
      rcases htr : readLoop errnos ri false 1 r2 b2 with
        ⟨tr, b3, r3⟩ | ⟨e3, bb3, rr3⟩ | bb3
      · rw [htr] at h
        dsimp only at h ⊢
        split at h <;> simp at h
      · rw [htr] at h
        dsimp only at h ⊢
        exact frameExcept_spec _ _ _ _ _ _ h
      · rw [htr] at h
        simp at h
    · rw [hp] at h
      dsimp only at h ⊢
      exact frameExcept_spec _ _ _ _ _ _ h
    · rw [hp] at h
      simp at h
  · rw [h7] at h
    dsimp only at h ⊢
    exact frameExcept_spec _ _ _ _ _ _ h
  · rw [h7] at h
    simp at h

/-- A zero-byte receive (`chunk []`) hit while fewer than `n` bytes are
available fails the read with `IOError('Socket closed')`, whatever was
already buffered being stored back. -/
theorem readLoop_peer_close (errnos : List Nat) (ri init : Bool) (n : Nat) :
    ∀ (pre : List RecvResult) (buf : List Nat) (rest : List RecvResult),
    goodChunks pre = true → buf.length + (flatEvents pre).length < n →
    readLoop errnos ri init n (pre ++ .chunk [] :: rest) buf =
      .fail (.ioError none) (buf ++ flatEvents pre) rest := by
  intro pre
  induction pre with
  | nil =>
    intro buf rest _ hn
    simp only [flatEvents, List.length_nil, Nat.add_zero] at hn
    rw [List.nil_append, readLoop_chunk hn, if_pos (by rfl)]
    simp [flatEvents]
  | cons ev pre' ih =>
    intro buf rest hg hn
    rcases goodChunks_cons.mp hg with ⟨h1, h2⟩
    cases ev with
    | err e => simp at h1
    | chunk s =>
      have hs : s.isEmpty = false := by simpa using h1
      have hlt : buf.length < n := by
        simp [flatEvents, List.length_append] at hn
        omega
      rw [List.cons_append, readLoop_chunk hlt, if_neg (by simp [hs])]
      have hn' : (buf ++ s).length + (flatEvents pre').length < n := by
        simp [flatEvents, List.length_append] at hn ⊢
        omega
      rw [ih (buf ++ s) rest h2 hn']
      simp [flatEvents, List.append_assoc]

/-- C4: Peer close.  (i) Whenever the receive primitive returns zero
bytes before the requested `n` bytes have accumulated (after any
sequence of successful chunks), `_read` fails with the
connection-closed condition — the `IOError('Socket closed')` of
transport.py lines 373-374/320-321, whose errno is `None` — no matter
how many bytes were already buffered.  (ii) Any `read_frame` that
propagates this condition leaves `connected = false`. -/
theorem C4_peer_close (errnos : List Nat) (ri init : Bool) (n : Nat) :
    (∀ (pre : List RecvResult) (buf : List Nat) (rest : List RecvResult),
      goodChunks pre = true → buf.length + (flatEvents pre).length < n →
      readLoop errnos ri init n (pre ++ .chunk [] :: rest) buf =
        .fail (.ioError none) (buf ++ flatEvents pre) rest) ∧
    (∀ (st : TState) (evs : List RecvResult),
      (read_frame errnos ri st evs).1 = .err (.ioError none) →
      (read_frame errnos ri st evs).2.1.connected = false) := by
  refine ⟨readLoop_peer_close errnos ri init n, ?_⟩
  intro st evs h
  rw [read_frame_err_connected errnos ri st evs (.ioError none) h]
  simp [errErrno, unavail]

/-- Witness for C4: two bytes already buffered, then a zero-byte
receive while reading a 7-byte header; the frame read propagates the
connection-closed error and clears `connected`. -/
theorem C4_peer_close_witness :
    readLoop TCP_errnos false true 7 ([.chunk [1, 2]] ++ .chunk [] :: []) [] =
      .fail (.ioError none) [1, 2] [] ∧
    (read_frame TCP_errnos false ⟨true, []⟩ [.chunk [1, 2], .chunk []]).1 =
        .err (.ioError none) ∧
    (read_frame TCP_errnos false ⟨true, []⟩ [.chunk [1, 2], .chunk []]).2.1.connected =
      false := by
  have h1 := (C4_peer_close TCP_errnos false true 7).1
    [.chunk [1, 2]] [] [] (by decide) (by decide)
  have hout : (read_frame TCP_errnos false ⟨true, []⟩ [.chunk [1, 2], .chunk []]).1 =
      .err (.ioError none) := by decide
  have h2 := (C4_peer_close TCP_errnos false true 7).2
    ⟨true, []⟩ [.chunk [1, 2], .chunk []] hout
  exact ⟨by simpa using h1, hout, h2⟩

/-- Counterexample to C5 as stated: an `ENOENT` socket error during the
payload read of a frame is a non-timeout I/O error (it is not transient
for `TCPTransport`, so it propagates), yet `connected` remains `true`
afterwards, because `read_frame` skips the disconnect for any errno in
`_UNAVAIL`. -/
theorem C5_counterexample :
    (read_frame TCP_errnos false ⟨true, []⟩
        [.chunk [1, 0, 5, 0, 0, 0, 3], .err (.ioError (some ENOENT))]).1 =
      .err (.ioError (some ENOENT)) ∧
    (.ioError (some ENOENT) : IOErr) ≠ .timeout ∧
    (read_frame TCP_errnos false ⟨true, []⟩
        [.chunk [1, 0, 5, 0, 0, 0, 3], .err (.ioError (some ENOENT))]).2.1.connected =
      true := by decide

/-- C5 (amended): after an error propagates out of `read_frame`, a
timeout leaves `connected` unchanged; a non-timeout I/O error clears
`connected` exactly when its errno is **not** in `_UNAVAIL`
(`EAGAIN`/`EINTR`/`ENOENT`/`EWOULDBLOCK`); a non-timeout error whose
errno is in `_UNAVAIL` also leaves `connected` unchanged. -/
theorem C5_disconnect_classification (errnos : List Nat) (ri : Bool)
    (st : TState) (evs : List RecvResult) (e : IOErr)
    (h : (read_frame errnos ri st evs).1 = .err e) :
    (e = .timeout → (read_frame errnos ri st evs).2.1.connected = st.connected) ∧
    (e ≠ .timeout → unavail (errErrno e) = false →
      (read_frame errnos ri st evs).2.1.connected = false) ∧
    (e ≠ .timeout → unavail (errErrno e) = true →
      (read_frame errnos ri st evs).2.1.connected = st.connected) := by
  have hc := read_frame_err_connected errnos ri st evs e h
  refine ⟨?_, ?_, ?_⟩
  · intro ht
    rw [hc, if_pos ht]
  · intro ht hu
    rw [hc, if_neg ht, hu]
    simp
  · intro ht hu
    rw [hc, if_neg ht, hu]
    simp

/-- Witness for C5 (amended), at a timeout during the header read and at
an `EIO` (errno 5, not in `_UNAVAIL`) during the header read. -/
theorem C5_disconnect_classification_witness :
    (read_frame TCP_errnos false ⟨true, []⟩ [.err .timeout]).2.1.connected = true ∧
    (read_frame TCP_errnos false ⟨true, []⟩
        [.err (.ioError (some 5))]).2.1.connected = false := by
  constructor
  · exact (C5_disconnect_classification TCP_errnos false ⟨true, []⟩
      [.err .timeout] .timeout (by decide)).1 rfl
  · exact (C5_disconnect_classification TCP_errnos false ⟨true, []⟩
      [.err (.ioError (some 5))] (.ioError (some 5)) (by decide)).2.1
      (by decide) (by decide)

/-- Counterexample to C6 as stated: the 7-byte header (declaring a
3-byte payload) is read, then 2 payload bytes arrive, then an `EIO`
(errno 5) socket error propagates.  The retained buffer afterwards is
only the 2 in-flight payload bytes: the 7 header bytes were *not*
preserved, because only the `socket.timeout` handler of `read_frame`
prepends `read_frame_buffer` to the retained buffer. -/
theorem C6_counterexample :
    read_frame TCP_errnos false ⟨true, []⟩
        [.chunk [1, 0, 5, 0, 0, 0, 3], .chunk [9, 9], .err (.ioError (some 5))] =
      (.err (.ioError (some 5)), ⟨false, [9, 9]⟩, []) ∧
    ([9, 9] : List Nat) ≠ [1, 0, 5, 0, 0, 0, 3] ++ [9, 9] := by decide

/-- C6 (amended): bytes already received are preserved across a read
failure only as follows.  (i) A `socket.timeout` during the payload read
leaves the retained buffer equal to the whole partially-read frame: the
header followed by the bytes the failing `_read` had accumulated.
(ii) Likewise for a timeout while awaiting the trailer byte (header ++
payload ++ accumulated).  (iii) For every failing `_read` — any error —
the bytes received *within that call* are preserved: the stored buffer
extends the entry buffer.  For non-timeout errors the frame bytes
already moved into `read_frame_buffer` are **not** restored (see the
counterexample). -/
theorem C6_mid_frame_preservation (errnos : List Nat) (ri : Bool)
    (st : TState) (evs : List RecvResult) :
    (∀ (hdr b1 : List Nat) (r1 : List RecvResult) (buf : List Nat)
        (rest : List RecvResult),
      readLoop errnos ri true 7 evs st.read_buffer = .ok hdr b1 r1 →
      readLoop errnos ri false (unpack_BHI hdr).2.2 r1 b1 = .fail .timeout buf rest →
      read_frame errnos ri st evs = (.err .timeout, ⟨st.connected, hdr ++ buf⟩, rest)) ∧
    (∀ (hdr b1 : List Nat) (r1 : List RecvResult) (pay b2 : List Nat)
        (r2 : List RecvResult) (buf : List Nat) (rest : List RecvResult),
      readLoop errnos ri true 7 evs st.read_buffer = .ok hdr b1 r1 →
      readLoop errnos ri false (unpack_BHI hdr).2.2 r1 b1 = .ok pay b2 r2 →
      readLoop errnos ri false 1 r2 b2 = .fail .timeout buf rest →
      read_frame errnos ri st evs =
        (.err .timeout, ⟨st.connected, (hdr ++ pay) ++ buf⟩, rest)) ∧
    (∀ (init : Bool) (n : Nat) (evs0 : List RecvResult) (buf0 : List Nat)
        (e : IOErr) (fb : List Nat) (rest : List RecvResult),
      readLoop errnos ri init n evs0 buf0 = .fail e fb rest →
      ∃ recvd, fb = buf0 ++ recvd) := by
  refine ⟨?_, ?_, ?_⟩
  · intro hdr b1 r1 buf rest h1 h2
    unfold read_frame
    rw [h1]
    dsimp only
    rw [h2]
    dsimp only [frameExcept]
  · intro hdr b1 r1 pay b2 r2 buf rest h1 h2 h3
    unfold read_frame
    rw [h1]
    dsimp only
    rw [h2]
    dsimp only
    rw [h3]
    dsimp only [frameExcept]
  · intro init n evs0 buf0 e fb rest h
    exact readLoop_fail_preserves errnos ri init n evs0 buf0 e fb rest h

/-- Witness for C6 (amended): a timeout right after the header leaves
the retained buffer holding the full 7 header bytes. -/
theorem C6_mid_frame_preservation_witness :
    read_frame TCP_errnos false ⟨true, []⟩
        [.chunk [1, 0, 5, 0, 0, 0, 3], .err .timeout] =
      (.err .timeout, ⟨true, [1, 0, 5, 0, 0, 0, 3]⟩, []) := by
  have h := (C6_mid_frame_preservation TCP_errnos false ⟨true, []⟩
      [.chunk [1, 0, 5, 0, 0, 0, 3], .err .timeout]).1
    [1, 0, 5, 0, 0, 0, 3] [] [.err .timeout] [] []
    (by decide) (by decide)
  simpa using h

theorem unpack_BHI_encode (t c L : Nat) (hc : c < 65536) (hL : L < 4294967296) :
    unpack_BHI (t :: (be16 c ++ be32 L)) = (t, c, L) := by
  simp [unpack_BHI, be16, be32, Prod.ext_iff]
  omega

/-- Master lemma for the frame protocol: with the wire image of a frame
(any trailer byte) followed by `extra` bytes delivered over any sequence
of non-empty chunks, `read_frame` from an empty buffer parses the frame,
consumes it exactly — leaving `extra` available — and returns the frame
for trailer `0xCE` and `UnexpectedFrame` otherwise, never touching
`connected`. -/
theorem read_frame_wire (errnos : List Nat) (ri conn : Bool)
    (t c trailer : Nat) (p extra : List Nat) (evs : List RecvResult)
    (hg : goodChunks evs = true) (hc : c < 65536)
    (hp : p.length < 4294967296)
    (hw : flatEvents evs = encodeFrame t c p trailer ++ extra) :
    ∃ ret rest, read_frame errnos ri ⟨conn, []⟩ evs =
      ((if trailer = 206 then .ok t c p else .unexpectedFrame trailer),
        ⟨conn, ret⟩, rest) ∧
      goodChunks rest = true ∧ ret ++ flatEvents rest = extra := by
  have hun : unpack_BHI (t :: (be16 c ++ be32 p.length)) = (t, c, p.length) :=
    unpack_BHI_encode t c p.length hc hp
  have hAB : ([] : List Nat) ++ flatEvents evs =
      (t :: (be16 c ++ be32 p.length)) ++ (p ++ trailer :: extra) := by
    simp [hw, encodeFrame, List.append_assoc]
  obtain ⟨b1, r1, h1, hg1, hflat1⟩ :=
    readLoop_split errnos ri true 7 evs [] _ _ hg hAB (by simp [be16, be32])
  obtain ⟨b2, r2, h2, hg2, hflat2⟩ :=
    readLoop_split errnos ri false p.length r1 b1 p (trailer :: extra) hg1
      hflat1 rfl
  have hflat2' : b2 ++ flatEvents r2 = [trailer] ++ extra := by
    simpa using hflat2
  obtain ⟨b3, r3, h3, hg3, hflat3⟩ :=
    readLoop_split errnos ri false 1 r2 b2 [trailer] extra hg2 hflat2' rfl
  refine ⟨b3, r3, ?_, hg3, hflat3⟩
  unfold read_frame
  dsimp only
  rw [h1]
  dsimp only
  rw [hun]
  dsimp only
  rw [h2]
  dsimp only
  rw [h3]
  dsimp only
  simp only [List.getD_cons_zero]
  by_cases htr : trailer = 206
  · rw [if_pos htr, if_pos htr]
  · rw [if_neg htr, if_neg htr]

/-- C2: Frame round-trip.  For every type `t < 2^8`, channel
`c < 2^16` and payload `p` with `p.length < 2^32`, delivering the wire
encoding of the frame (trailer `0xCE`) over any sequence of non-empty
chunks makes `read_frame` return exactly `(t, c, p)`, consuming the
whole encoding and leaving the retained buffer empty. -/
theorem C2_frame_round_trip (errnos : List Nat) (ri conn : Bool)
    (t c : Nat) (p : List Nat) (evs : List RecvResult)
    (ht : t < 256) (hc : c < 65536) (hp : p.length < 4294967296)
    (hg : goodChunks evs = true)
    (hw : flatEvents evs = encodeFrame t c p 206) :
    read_frame errnos ri ⟨conn, []⟩ evs = (.ok t c p, ⟨conn, []⟩, []) := by
  obtain ⟨ret, rest, heq, hg', hflat⟩ :=
    read_frame_wire errnos ri conn t c 206 p [] evs hg hc hp (by simp [hw])
  rcases List.append_eq_nil.mp hflat with ⟨hret, hfr⟩
  have hrest := flatEvents_nil_of_goodChunks hg' hfr
  rw [heq, hret, hrest]
  simp

/-- Witness for C2: the frame (type 1, channel 258, payload
`[170, 187]`) delivered one byte per chunk round-trips. -/
theorem C2_frame_round_trip_witness :
    read_frame TCP_errnos false ⟨true, []⟩
        [.chunk [1], .chunk [1], .chunk [2], .chunk [0], .chunk [0],
          .chunk [0], .chunk [2], .chunk [170], .chunk [187], .chunk [206]] =
      (.ok 1 258 [170, 187], ⟨true, []⟩, []) := by
  exact C2_frame_round_trip TCP_errnos false true 1 258 [170, 187] _
    (by decide) (by decide) (by decide) (by decide) (by decide)

/-- C3: Bad trailer.  A frame whose trailer byte `b` is not `0xCE`
makes `read_frame` fail with `UnexpectedFrame` carrying `b`; the 7
header bytes, the declared payload and the trailer byte have all been
consumed (exactly the bytes after them remain available), and
`connected` is unchanged. -/
theorem C3_bad_trailer (errnos : List Nat) (ri conn : Bool)
    (t c b : Nat) (p extra : List Nat) (evs : List RecvResult)
    (hb : b ≠ 206) (ht : t < 256) (hc : c < 65536)
    (hp : p.length < 4294967296) (hg : goodChunks evs = true)
    (hw : flatEvents evs = encodeFrame t c p b ++ extra) :
    ∃ ret rest, read_frame errnos ri ⟨conn, []⟩ evs =
      (.unexpectedFrame b, ⟨conn, ret⟩, rest) ∧
      goodChunks rest = true ∧ ret ++ flatEvents rest = extra := by
  obtain ⟨ret, rest, heq, hg', hflat⟩ :=
    read_frame_wire errnos ri conn t c b p extra evs hg hc hp hw
  rw [if_neg hb] at heq
  exact ⟨ret, rest, heq, hg', hflat⟩

/-- Witness for C3: trailer byte 0 instead of `0xCE`, with one stray
byte after the frame; the parse fails with `UnexpectedFrame 0` and
`connected` stays `true`. -/
theorem C3_bad_trailer_witness :
    (read_frame TCP_errnos false ⟨true, []⟩
        [.chunk [1, 1, 2, 0, 0, 0, 2, 170, 187, 0, 99]]).1 =
      .unexpectedFrame 0 ∧
    (read_frame TCP_errnos false ⟨true, []⟩
        [.chunk [1, 1, 2, 0, 0, 0, 2, 170, 187, 0, 99]]).2.1.connected = true := by
  obtain ⟨ret, rest, heq, _, _⟩ := C3_bad_trailer TCP_errnos false true
    1 258 0 [170, 187] [99] [.chunk [1, 1, 2, 0, 0, 0, 2, 170, 187, 0, 99]]
    (by decide) (by decide) (by decide) (by decide) (by decide) (by decide)
  rw [heq]
  exact ⟨rfl, rfl⟩

/-!
## Lemmas about the dict model and the socket-option merge
-/

theorem dictGet_cons (a b : Nat) (d : List (Nat × Nat)) (k : Nat) :
    dictGet ((a, b) :: d) k = if a = k then some b else dictGet d k := by
  by_cases h : a = k
  · simp [dictGet, List.find?_cons_of_pos, h]
  · simp only [dictGet]
    rw [List.find?_cons_of_neg]
    · simp [h]
    · simp [h]

theorem dictGet_append_none (d1 d2 : List (Nat × Nat)) (k : Nat)
    (h : dictGet d1 k = none) : dictGet (d1 ++ d2) k = dictGet d2 k := by
  induction d1 with
  | nil => simp
  | cons kv d1' ih =>
    obtain ⟨a, b⟩ := kv
    rw [dictGet_cons] at h
    by_cases ha : a = k
    · simp [ha] at h
    · rw [List.cons_append, dictGet_cons, if_neg ha]
      exact ih (by simpa [ha] using h)

theorem dictGet_append_some (d1 d2 : List (Nat × Nat)) (k w : Nat)
    (h : dictGet d1 k = some w) : dictGet (d1 ++ d2) k = some w := by
  induction d1 with
  | nil => simp [dictGet] at h
  | cons kv d1' ih =>
    obtain ⟨a, b⟩ := kv
    rw [dictGet_cons] at h
    by_cases ha : a = k
    · rw [if_pos ha] at h
      rw [List.cons_append, dictGet_cons, if_pos ha]
      exact h
    · rw [if_neg ha] at h
      rw [List.cons_append, dictGet_cons, if_neg ha]
      exact ih h

theorem dictGet_mapSet_of_found (k v : Nat) :
    ∀ d : List (Nat × Nat), (d.find? (fun kv => kv.1 == k)).isSome = true →
    dictGet (d.map fun kv => if kv.1 == k then (kv.1, v) else kv) k = some v := by
  intro d
  induction d with
  | nil => simp
  | cons kv d' ih =>
    obtain ⟨a, b⟩ := kv
    intro hf
    by_cases ha : a = k
    · have hfa : (if ((a, b).1 == k) = true then ((a, b).1, v) else (a, b)) = (a, v) := by
        simp [ha]
      rw [List.map_cons, hfa, dictGet_cons, if_pos ha]
    · have hfa : (if ((a, b).1 == k) = true then ((a, b).1, v) else (a, b)) = (a, b) := by
        simp [ha]
      rw [List.map_cons, hfa, dictGet_cons, if_neg ha]
      apply ih
      rw [List.find?_cons_of_neg] at hf
      · exact hf
      · simpa using ha

theorem dictGet_mapSet_other (k v k' : Nat) (hk : k' ≠ k) :
    ∀ d : List (Nat × Nat),
    dictGet (d.map fun kv => if kv.1 == k then (kv.1, v) else kv) k' = dictGet d k' := by
  intro d
  induction d with
  | nil => rfl
  | cons kv d' ih =>
    obtain ⟨a, b⟩ := kv
    by_cases ha : a = k
    · have hfa : (if ((a, b).1 == k) = true then ((a, b).1, v) else (a, b)) = (a, v) := by
        simp [ha]
      rw [List.map_cons, hfa, dictGet_cons, dictGet_cons,
        if_neg (show ¬ a = k' by omega), if_neg (show ¬ a = k' by omega)]
      exact ih
    · have hfa : (if ((a, b).1 == k) = true then ((a, b).1, v) else (a, b)) = (a, b) := by
        simp [ha]
      rw [List.map_cons, hfa, dictGet_cons, dictGet_cons]
      by_cases ha' : a = k'
      · rw [if_pos ha', if_pos ha']
      · rw [if_neg ha', if_neg ha']
        exact ih

theorem dictGet_dictSet_self (d : List (Nat × Nat)) (k v : Nat) :
    dictGet (dictSet d k v) k = some v := by
  unfold dictSet
  by_cases hf : (d.find? (fun kv => kv.1 == k)).isSome = true
  · rw [if_pos hf]
    exact dictGet_mapSet_of_found k v d hf
  · rw [if_neg hf]
    have hnone : dictGet d k = none := by
      cases h : d.find? (fun kv => kv.1 == k)
      · simp [dictGet, h]
      · simp [h] at hf
    rw [dictGet_append_none d _ k hnone, dictGet_cons, if_pos rfl]

theorem dictGet_dictSet_other (d : List (Nat × Nat)) (k v k' : Nat) (hk : k' ≠ k) :
    dictGet (dictSet d k v) k' = dictGet d k' := by
  unfold dictSet
  by_cases hf : (d.find? (fun kv => kv.1 == k)).isSome = true
  · rw [if_pos hf]
    exact dictGet_mapSet_other k v k' hk d
  · rw [if_neg hf]
    cases hd : dictGet d k'
    · rw [dictGet_append_none d _ k' hd, dictGet_cons, if_neg (show ¬ k = k' by omega)]
      rfl
    · exact dictGet_append_some d _ k' _ hd

theorem dictGet_dictUpdate_notkey (k : Nat) :
    ∀ (s d : List (Nat × Nat)), (∀ kv ∈ s, kv.1 ≠ k) →
    dictGet (dictUpdate d s) k = dictGet d k := by
  intro s
  induction s with
  | nil => intro d _; rfl
  | cons kv s' ih =>
    obtain ⟨a, b⟩ := kv
    intro d hmem
    have ha : a ≠ k := hmem (a, b) (by simp)
    have hu : dictUpdate d ((a, b) :: s') = dictUpdate (dictSet d a b) s' := rfl
    rw [hu, ih (dictSet d a b) (fun kv hkv => hmem kv (by simp [hkv])),
      dictGet_dictSet_other d a b k (by omega)]

theorem dictGet_dictUpdate_key (k v : Nat) :
    ∀ (s d : List (Nat × Nat)), (s.map Prod.fst).Nodup →
    dictGet s k = some v → dictGet (dictUpdate d s) k = some v := by
  intro s
  induction s with
  | nil => intro d _ h; simp [dictGet] at h
  | cons kv s' ih =>
    obtain ⟨a, b⟩ := kv
    intro d hnodup hget
    rw [dictGet_cons] at hget
    rw [List.map_cons] at hnodup
    have hhead := (List.nodup_cons.mp hnodup).1
    have htail := (List.nodup_cons.mp hnodup).2
    have hu : dictUpdate d ((a, b) :: s') = dictUpdate (dictSet d a b) s' := rfl
    by_cases ha : a = k
    · rw [if_pos ha] at hget
      have hnotin : ∀ kv ∈ s', kv.1 ≠ k := by
        intro kv hkv heq
        exact hhead (List.mem_map.mpr ⟨kv, hkv, by rw [heq, ha]⟩)
      rw [hu, dictGet_dictUpdate_notkey k s' (dictSet d a b) hnotin, ← ha,
        dictGet_dictSet_self]
      exact hget
    · rw [if_neg ha] at hget
      rw [hu]
      exact ih (dictSet d a b) htail hget

theorem dictGet_dictSetdefault_none (d : List (Nat × Nat)) (k v : Nat)
    (h : dictGet d k = none) : dictGet (dictSetdefault d k v) k = some v := by
  unfold dictSetdefault
  have hf : d.find? (fun kv => kv.1 == k) = none := by
    cases hf : d.find? (fun kv => kv.1 == k)
    · rfl
    · simp [dictGet, hf] at h
  rw [if_neg (by simp [hf]), dictGet_append_none d _ k h, dictGet_cons,
    if_pos rfl]

theorem dictGet_dictSetdefault_some (d : List (Nat × Nat)) (k v w : Nat)
    (h : dictGet d k = some w) : dictGet (dictSetdefault d k v) k = some w := by
  unfold dictSetdefault
  have hf : (d.find? (fun kv => kv.1 == k)).isSome = true := by
    cases hf : d.find? (fun kv => kv.1 == k)
    · simp [dictGet, hf] at h
    · simp
  rw [if_pos hf]
  exact h

theorem dictGet_defaults_mem (gso : Nat → Nat) (k : Nat) :
    ∀ tcpOpts : List Nat, k ∈ tcpOpts →
    dictGet (get_tcp_socket_defaults tcpOpts gso) k = some (gso k) := by
  intro tcpOpts
  induction tcpOpts with
  | nil => intro h; simp at h
  | cons a opts ih =>
    intro h
    rw [get_tcp_socket_defaults, List.map_cons, dictGet_cons]
    by_cases ha : a = k
    · rw [if_pos ha, ha]
    · rw [if_neg ha]
      refine ih ?_
      rcases List.mem_cons.mp h with h' | h'
      · omega
      · exact h'

theorem dictGet_defaults_not_mem (gso : Nat → Nat) (k : Nat) :
    ∀ tcpOpts : List Nat, k ∉ tcpOpts →
    dictGet (get_tcp_socket_defaults tcpOpts gso) k = none := by
  intro tcpOpts
  induction tcpOpts with
  | nil => intro _; rfl
  | cons a opts ih =>
    intro h
    rw [get_tcp_socket_defaults, List.map_cons, dictGet_cons,
      if_neg (show ¬ a = k by intro ha; exact h (by simp [ha]))]
    exact ih (fun h' => h (by simp [h']))

/-- Counterexample to C7 as stated: the platform reports `TCP_NODELAY`
with current value 0 (Nagle on — its universal OS default), the caller
supplies a settings map not containing no-delay; the code's
`setdefault` keeps the platform's 0, whereas the claimed baseline
*overlaid with no-delay = 1* would give 1. -/
theorem C7_counterexample :
    dictGet (set_socket_options [TCP_NODELAY] (fun _ => 0) [(2, 5)])
        TCP_NODELAY = some 0 ∧
    dictGet (set_socket_options_specMerge [TCP_NODELAY] (fun _ => 0) [(2, 5)])
        TCP_NODELAY = some 1 ∧
    (some 0 : Option Nat) ≠ some 1 := by decide

/-- C7 (amended): with a non-empty settings map, the applied map is the
platform baseline with `TCP_NODELAY` *defaulted* to 1 — inserted only
when the platform does not already report it — then overlaid with the
caller settings.  Hence: no-delay is forced to 1 only when the caller
does not set it *and* the platform does not report it; when the platform
reports it and the caller does not set it, the platform's current value
is applied; a caller-set value always wins. -/
theorem C7_socket_option_merge (tcpOpts : List Nat) (gso : Nat → Nat)
    (settings : List (Nat × Nat)) (hne : settings.isEmpty = false) :
    set_socket_options tcpOpts gso settings =
      dictUpdate (dictSetdefault (get_tcp_socket_defaults tcpOpts gso)
        TCP_NODELAY 1) settings ∧
    ((∀ kv ∈ settings, kv.1 ≠ TCP_NODELAY) → TCP_NODELAY ∉ tcpOpts →
      dictGet (set_socket_options tcpOpts gso settings) TCP_NODELAY = some 1) ∧
    ((∀ kv ∈ settings, kv.1 ≠ TCP_NODELAY) → TCP_NODELAY ∈ tcpOpts →
      dictGet (set_socket_options tcpOpts gso settings) TCP_NODELAY =
        some (gso TCP_NODELAY)) ∧
    (∀ v : Nat, (settings.map Prod.fst).Nodup →
      dictGet settings TCP_NODELAY = some v →
      dictGet (set_socket_options tcpOpts gso settings) TCP_NODELAY = some v) := by
  have hbr : set_socket_options tcpOpts gso settings =
      dictUpdate (dictSetdefault (get_tcp_socket_defaults tcpOpts gso)
        TCP_NODELAY 1) settings := by
    unfold set_socket_options
    rw [if_neg (by simp [hne])]
  refine ⟨hbr, ?_, ?_, ?_⟩
  · intro hnk hnin
    rw [hbr, dictGet_dictUpdate_notkey TCP_NODELAY settings _ hnk,
      dictGet_dictSetdefault_none _ _ _
        (dictGet_defaults_not_mem gso TCP_NODELAY tcpOpts hnin)]
  · intro hnk hin
    rw [hbr, dictGet_dictUpdate_notkey TCP_NODELAY settings _ hnk,
      dictGet_dictSetdefault_some _ _ _ _
        (dictGet_defaults_mem gso TCP_NODELAY tcpOpts hin)]
  · intro v hnodup hget
    rw [hbr]
    exact dictGet_dictUpdate_key TCP_NODELAY v settings _ hnodup hget

/-- Witness for C7 (amended): platform without `TCP_NODELAY` gets 1;
platform reporting it (current value 7) keeps 7; a caller-set no-delay
value 9 wins. -/
theorem C7_socket_option_merge_witness :
    dictGet (set_socket_options [] (fun _ => 0) [(2, 5)]) TCP_NODELAY = some 1 ∧
    dictGet (set_socket_options [TCP_NODELAY] (fun _ => 7) [(2, 5)])
      TCP_NODELAY = some 7 ∧
    dictGet (set_socket_options [TCP_NODELAY] (fun _ => 7) [(TCP_NODELAY, 9)])
      TCP_NODELAY = some 9 := by
  refine ⟨?_, ?_, ?_⟩
  · exact (C7_socket_option_merge [] (fun _ => 0) [(2, 5)] (by decide)).2.1
      (by decide) (by decide)
  · exact (C7_socket_option_merge [TCP_NODELAY] (fun _ => 7) [(2, 5)]
      (by decide)).2.2.1 (by decide) (by decide)
  · exact (C7_socket_option_merge [TCP_NODELAY] (fun _ => 7) [(TCP_NODELAY, 9)]
      (by decide)).2.2.2 9 (by decide) (by decide)

/-!
## Lemmas about endpoint parsing
-/

theorem pyInt_digits_isSome (cs : List Char) (hne : cs ≠ [])
    (hd : cs.all Char.isDigit = true) : (pyInt cs).isSome = true := by
  cases cs with
  | nil => exact absurd rfl hne
  | cons c ds =>
    have hc : c.isDigit = true := by
      simp [List.all_cons] at hd
      exact hd.1
    have hplus : ¬ c = '+' := by
      intro h
      rw [h] at hc
      exact absurd hc (by decide)
    have hminus : ¬ c = '-' := by
      intro h
      rw [h] at hc
      exact absurd hc (by decide)
    have hd' : (c :: ds).all Char.isDigit = true := hd
    simp only [pyInt, if_neg hplus, if_neg hminus, if_pos hd']
    rfl

theorem IPV6_LITERAL_group2 (cs h ds : List Char)
    (hm : IPV6_LITERAL cs = some (h, some ds)) :
    ds ≠ [] ∧ ds.all Char.isDigit = true := by
  unfold IPV6_LITERAL at hm
  split at hm
  · dsimp only at hm
    split at hm
    · cases hm
    · split at hm
      · split at hm
        · cases hm
        · rename_i hds
          obtain ⟨h1, h2⟩ : _ ∧ _ = ds := by simpa using hm
          constructor
          · intro hnil
            rw [h2] at hds
            exact hds (by simp [hnil])
          · rw [← h2, List.all_eq_true]
            intro c hcmem
            exact List.mem_takeWhile_imp hcmem
      · cases hm
      · cases hm
  · cases hm

theorem rsplit_core :
    ∀ r : List Char, ':' ∈ r →
    r = r.takeWhile (fun c => !(c == ':')) ++
        ':' :: (r.dropWhile (fun c => !(c == ':'))).drop 1 ∧
      ':' ∉ r.takeWhile (fun c => !(c == ':')) := by
  intro r
  induction r with
  | nil => intro h; simp at h
  | cons c r' ih =>
    intro hmem
    by_cases hc : c = ':'
    · subst hc
      simp [List.takeWhile_cons, List.dropWhile_cons]
    · have hmem' : ':' ∈ r' := by
        rcases List.mem_cons.mp hmem with h | h
        · exact absurd h.symm hc
        · exact h
      have hp : (!(c == ':')) = true := by simp [hc]
      rcases ih hmem' with ⟨heq, hnot⟩
      constructor
      · rw [List.takeWhile_cons, if_pos hp, List.dropWhile_cons, if_pos hp,
          List.cons_append]
        exact congrArg (c :: ·) heq
      · rw [List.takeWhile_cons, if_pos hp]
        intro hin
        rcases List.mem_cons.mp hin with h | h
        · exact hc h.symm
        · exact hnot h

theorem to_host_port_none_char (h : List Char) (hn : to_host_port h = none) :
    h.contains ':' = true ∧
    h = (rsplitColon h).1 ++ ':' :: (rsplitColon h).2 ∧
    ':' ∉ (rsplitColon h).2 ∧ pyInt (rsplitColon h).2 = none := by
  unfold to_host_port at hn
  cases hm : IPV6_LITERAL h with
  | some pr =>
    obtain ⟨hh, g2⟩ := pr
    cases g2 with
    | some ds =>
      rw [hm] at hn
      dsimp only at hn
      obtain ⟨hne, hall⟩ := IPV6_LITERAL_group2 h hh ds hm
      have hs := pyInt_digits_isSome ds hne hall
      cases hp : pyInt ds with
      | some p => rw [hp] at hn; cases hn
      | none => rw [hp] at hs; cases hs
    | none => rw [hm] at hn; cases hn
  | none =>
    rw [hm] at hn
    dsimp only at hn
    by_cases hcol : h.contains ':'
    · rw [if_pos hcol] at hn
      have hmem : ':' ∈ h.reverse := by
        rw [List.mem_reverse]
        exact List.mem_of_elem_eq_true hcol
      rcases rsplit_core h.reverse hmem with ⟨heq, hnot⟩
      cases hp : pyInt (rsplitColon h).2 with
      | some p => rw [hp] at hn; cases hn
      | none =>
        refine ⟨hcol, ?_, ?_, rfl⟩
        · unfold rsplitColon
          dsimp only
          conv_lhs => rw [← List.reverse_reverse h]
          conv_lhs => rw [heq]
          simp [List.reverse_append]
        · unfold rsplitColon
          dsimp only
          intro hin
          rw [List.mem_reverse] at hin
          exact hnot hin
    · rw [if_neg hcol] at hn
      cases hn

/-- C9: Endpoint parsing.  `"[fe80::1]:5432"` parses to host
`"fe80::1"` port `5432`; `"broker:5673"` to `"broker"` port `5673`;
`"broker"` to `"broker"` with no port.  And the parse fails (the
`ValueError` from `int()`, the spec's `MalformedEndpoint`) only when the
host contains a colon and the declared port suffix — the colon-free part
after the last colon — is not a valid integer. -/
theorem C9_endpoint_parsing :
    to_host_port "[fe80::1]:5432".toList = some ("fe80::1".toList, some 5432) ∧
    to_host_port "broker:5673".toList = some ("broker".toList, some 5673) ∧
    to_host_port "broker".toList = some ("broker".toList, none) ∧
    (∀ h : List Char, to_host_port h = none →
      h.contains ':' = true ∧
      h = (rsplitColon h).1 ++ ':' :: (rsplitColon h).2 ∧
      ':' ∉ (rsplitColon h).2 ∧ pyInt (rsplitColon h).2 = none) := by
  exact ⟨by decide, by decide, by decide, to_host_port_none_char⟩

/-- Witness for C9's failure clause at `"broker:5x"`, whose port suffix
`"5x"` is not a valid integer. -/
theorem C9_endpoint_parsing_witness :
    "broker:5x".toList.contains ':' = true ∧
    "broker:5x".toList =
      (rsplitColon "broker:5x".toList).1 ++
        ':' :: (rsplitColon "broker:5x".toList).2 ∧
    ':' ∉ (rsplitColon "broker:5x".toList).2 ∧
    pyInt (rsplitColon "broker:5x".toList).2 = none := by
  exact C9_endpoint_parsing.2.2.2 "broker:5x".toList (by decide)

/-- C10: For every `SSLTransport` constructed with a non-dict `ssl`
argument — in particular the `True` the `Transport` factory forwards
when TLS is selected without an options mapping — the `sslopts`
attribute is never assigned, so `_setup_transport` fails with
`AttributeError` (before `_wrap_socket`/`do_handshake` can run); only a
dict-valued `ssl` yields a transport whose setup hook runs (wrapping
with those options). -/
theorem C10_sslopts_attribute :
    (∀ s : SslArg, (∀ d, s ≠ .dictV d) →
      SSLTransport_init s = none ∧
      SSLTransport_setup_transport (SSLTransport_init s) = .error ()) ∧
    Transport (.boolV true) = .sslT none ∧
    (∀ d, SSLTransport_init (.dictV d) = some d ∧
      SSLTransport_setup_transport (SSLTransport_init (.dictV d)) = .ok d) := by
  refine ⟨?_, rfl, ?_⟩
  · intro s hs
    cases s with
    | noneV => exact ⟨rfl, rfl⟩
    | boolV b => exact ⟨rfl, rfl⟩
    | dictV d => exact absurd rfl (hs d)
  · intro d
    exact ⟨rfl, rfl⟩

/-- Witness for C10 at `ssl = True`: `sslopts` is unassigned and the
setup hook raises `AttributeError`. -/
theorem C10_sslopts_attribute_witness :
    SSLTransport_init (.boolV true) = none ∧
    SSLTransport_setup_transport (SSLTransport_init (.boolV true)) =
      .error () := by
  exact C10_sslopts_attribute.1 (.boolV true) (fun d h => by cases h)
